import Mathlib

/-!
Verification development for the CNC-Mill backend (Python sources under
src/backend).  The Python code is shallowly embedded: strings are
represented as lists of characters, floating point values as rationals
(both sides of every compared computation use the identical operations,
so exact-equality statements transfer), and fallible code (Python code
that may raise) returns Option, with none modelling a raised exception.
-/

namespace CncMill

/-- Generic fold of a fallible step function over a list; models a Python
loop whose body may raise (none): the first raise aborts the whole loop. -/
def foldOpt {α β : Type} (step : β → α → Option β) : β → List α → Option β
  | b, [] => some b
  | b, a :: l =>
    match step b a with
    | none => none
    | some b2 => foldOpt step b2 l

/-- Generic fallible map; models a Python list comprehension whose element
expression may raise. -/
def mapOpt {α β : Type} (f : α → Option β) : List α → Option (List β)
  | [] => some []
  | a :: l =>
    match f a with
    | none => none
    | some b => (mapOpt f l).map (fun bs => b :: bs)

/-- ASCII whitespace recognized by the Python str.strip and str.split
builtins (space, tab, newline, carriage return, vertical tab, form feed);
the Unicode-only space code points are out of scope for this development. -/
def pyIsSpace (c : Char) : Bool :=
  c = ' ' || c = Char.ofNat 9 || c = Char.ofNat 10 || c = Char.ofNat 13 ||
  c = Char.ofNat 11 || c = Char.ofNat 12

/-- Model of the Python str.strip() builtin (no argument): drop whitespace
from both ends. -/
def pyStrip (s : List Char) : List Char :=
  ((s.dropWhile pyIsSpace).reverse.dropWhile pyIsSpace).reverse

/-- Model of Python str.upper restricted to ASCII (per-character upcasing;
the length-changing Unicode special cases are out of scope). -/
def upperL (s : List Char) : List Char := s.map Char.toUpper

/-- Boolean string-prefix test, models Python str.startswith. -/
def startsWithL {α : Type} [DecidableEq α] : List α → List α → Bool
  | [], _ => true
  | _ :: _, [] => false
  | a :: p, b :: s => if a = b then startsWithL p s else false

/-- Boolean substring-containment test, models the Python `needle in hay`
operator on strings. -/
def containsSubL (needle : List Char) : List Char → Bool
  | [] => needle.isEmpty
  | c :: rest => startsWithL needle (c :: rest) || containsSubL needle rest

/-- Model of Python str.split(sep) for a single separator character:
splits at every occurrence, keeping empty chunks (helper with an
accumulator holding the current chunk reversed). -/
def splitOnCharGo (sep : Char) (cur : List Char) : List Char → List (List Char)
  | [] => [cur.reverse]
  | c :: rest =>
    if c = sep then cur.reverse :: splitOnCharGo sep [] rest
    else splitOnCharGo sep (c :: cur) rest

/-- Model of Python str.split(sep) for a single separator character. -/
def splitOnChar (sep : Char) (s : List Char) : List (List Char) :=
  splitOnCharGo sep [] s

/-- Helper for the whitespace split: accumulates the current token
reversed, dropping empty tokens as Python str.split() (no argument) does. -/
def splitWsGo (cur : List Char) : List Char → List (List Char)
  | [] => if cur.isEmpty then [] else [cur.reverse]
  | c :: rest =>
    if pyIsSpace c then
      if cur.isEmpty then splitWsGo [] rest
      else cur.reverse :: splitWsGo [] rest
    else splitWsGo (c :: cur) rest

/-- Model of Python str.split() with no argument: split on whitespace
runs, discarding empty tokens. -/
def splitWs (s : List Char) : List (List Char) := splitWsGo [] s

/-- Digit string to natural number (helper for the float model). -/
def natOfDigits (ds : List Char) : ℕ :=
  ds.foldl (fun a c => a * 10 + (c.toNat - 48)) 0

/-- Exponent digits (with optional sign) of a float literal; none when the
digit run is empty or contains a non-digit, modelling a raise. -/
def expDigits (r : List Char) : Option ℤ :=
  match r with
  | '+' :: ds =>
    if ds.isEmpty then none
    else if ds.all Char.isDigit then some ((natOfDigits ds : ℤ)) else none
  | '-' :: ds =>
    if ds.isEmpty then none
    else if ds.all Char.isDigit then some (-(natOfDigits ds : ℤ)) else none
  | ds =>
    if ds.isEmpty then none
    else if ds.all Char.isDigit then some ((natOfDigits ds : ℤ)) else none

/-- Optional exponent part of a float literal: empty means exponent 0. -/
def pyExpPart : List Char → Option ℤ
  | [] => some 0
  | 'e' :: r => expDigits r
  | 'E' :: r => expDigits r
  | _ => none

/-- Model of the Python float() builtin on finite decimal literals:
optional surrounding whitespace, optional sign, decimal mantissa with
optional fractional part, optional exponent.  Values are exact rationals;
none models the ValueError raised on a malformed literal (such as "abc").
The inf/nan spellings and digit-group underscores accepted by Python are
out of scope: no claim in this development depends on them, and both the
parser and the move tracker share this single model. -/
def py_float (s0 : List Char) : Option ℚ :=
  let s := pyStrip s0
  let sgns : ℚ × List Char :=
    match s with
    | '+' :: r => (1, r)
    | '-' :: r => (-1, r)
    | r => (1, r)
  let s1 := sgns.2
  let ip := s1.takeWhile Char.isDigit
  let s2 := s1.drop ip.length
  match s2 with
  | '.' :: r =>
    let fp := r.takeWhile Char.isDigit
    let s3 := r.drop fp.length
    if ip.isEmpty && fp.isEmpty then none
    else
      (pyExpPart s3).map (fun e =>
        sgns.1 * ((natOfDigits ip : ℚ) + (natOfDigits fp : ℚ) / (10 : ℚ) ^ fp.length)
          * (10 : ℚ) ^ e)
  | _ =>
    if ip.isEmpty then none
    else (pyExpPart s2).map (fun e => sgns.1 * (natOfDigits ip : ℚ) * (10 : ℚ) ^ e)

/-- Line separators recognized only by str.splitlines and not by text-mode
file iteration: vertical tab, form feed, the FS/GS/RS controls, NEL, and
the Unicode line and paragraph separators. -/
def exoticSep (c : Char) : Bool :=
  c = Char.ofNat 11 || c = Char.ofNat 12 || c = Char.ofNat 28 ||
  c = Char.ofNat 29 || c = Char.ofNat 30 || c = Char.ofNat 133 ||
  c = Char.ofNat 8232 || c = Char.ofNat 8233

/-- Line separators recognized by universal-newline text-mode file
iteration: newline and carriage return (with CR LF as one break). -/
def univSep (c : Char) : Bool := c = Char.ofNat 10 || c = Char.ofNat 13

/-- Boundary set of Python str.splitlines: the universal newlines plus the
exotic separators. -/
def pySep (c : Char) : Bool := univSep c || exoticSep c

/-- Generic line splitter: split at every separator character, treating a
carriage return directly followed by a newline as a single break, and
dropping a trailing empty chunk (helper, current chunk reversed). -/
def slGo (sep : Char → Bool) : List Char → List Char → List (List Char)
  | cur, [] => if cur.isEmpty then [] else [cur.reverse]
  | cur, [c] => if sep c then [cur.reverse] else [(c :: cur).reverse]
  | cur, c :: d :: rest =>
    if sep c then
      if c = Char.ofNat 13 && d = Char.ofNat 10 then cur.reverse :: slGo sep [] rest
      else cur.reverse :: slGo sep [] (d :: rest)
    else slGo sep (c :: cur) (d :: rest)

/-- Model of Python str.splitlines (used by start_job and parse_file to
split the file text into the lines the executor and the parser iterate). -/
def pySplitlines (s : List Char) : List (List Char) := slGo pySep [] s

/-- Model of text-mode file line iteration under universal newlines, as
performed by FileStore.line_count. -/
def fileLines (s : List Char) : List (List Char) := slGo univSep [] s

/-- Model of FileStore.line_count: number of lines of the file under
text-mode iteration (sum(1 for _ in f)). -/
def line_count (s : List Char) : ℕ := (fileLines s).length

/-- Machine position or move target, a triple of coordinates; the source
stores these as 3-element Python lists indexed 0/1/2. -/
structure Vec3 where
  x : ℚ
  y : ℚ
  z : ℚ
deriving DecidableEq

/-- Model of models.PathSegment (field end is named endPos, end being a
Lean keyword). -/
structure PathSegment where
  start : Vec3
  endPos : Vec3
  rapid : Bool
deriving DecidableEq

/-- Model of models.Preview. -/
structure Preview where
  segments : List PathSegment
  bbox_min : Vec3
  bbox_max : Vec3
deriving DecidableEq

/-- Componentwise minimum. -/
def vmin (a b : Vec3) : Vec3 := ⟨min a.x b.x, min a.y b.y, min a.z b.z⟩

/-- Componentwise maximum. -/
def vmax (a b : Vec3) : Vec3 := ⟨max a.x b.x, max a.y b.y, max a.z b.z⟩

/-- Running bounding box of parse_file.  The source seeds bbox_min and
bbox_max with plus and minus infinity and detects the no-motion case by
the sentinel surviving; rationals have no infinities, so the untouched
sentinel is modelled by none. -/
def bboxExtend : Option (Vec3 × Vec3) → Vec3 → Vec3 → Vec3 × Vec3
  | none, s, e => (vmin s e, vmax s e)
  | some (lo, hi), s, e => (vmin lo (vmin s e), vmax hi (vmax s e))

/-- One iteration of the axis-word loop that appears, with identical text,
in GCodeParser._extract_move and inline in SimpleMoveTracker.consume: a
token starting with X, Y or Z parses its remainder as a float, which in
absolute mode replaces the corresponding component of the target and in
incremental mode is added to the corresponding component of the current
position (pos, not target).  A malformed remainder raises (none). -/
def axisTok (pos : Vec3) (absolute : Bool) (target : Vec3) (tok : List Char) : Option Vec3 :=
  match tok with
  | 'X' :: r => (py_float r).map (fun v => { target with x := if absolute then v else pos.x + v })
  | 'Y' :: r => (py_float r).map (fun v => { target with y := if absolute then v else pos.y + v })
  | 'Z' :: r => (py_float r).map (fun v => { target with z := if absolute then v else pos.z + v })
  | _ => some target

/-- The axis-word loop over all whitespace-separated tokens of a line
(shared text of GCodeParser._extract_move and SimpleMoveTracker.consume). -/
def axisLoop (pos : Vec3) (absolute : Bool) (toks : List (List Char)) : Option Vec3 :=
  foldOpt (axisTok pos absolute) pos toks

/-- Model of GCodeParser._extract_move: start from the current position,
apply every axis token of the (already uppercased) line, return the pair
(copy of current position, target). -/
def extract_move (pos : Vec3) (absolute : Bool) (code : List Char) : Option (Vec3 × Vec3) :=
  (axisLoop pos absolute (splitWs code)).map (fun tg => (pos, tg))

/-- Mutable state of GCodeParser while parse_file runs: simulated
position, distance mode, accumulated segments and bounding box. -/
structure ParseAcc where
  position : Vec3
  absolute : Bool
  segments : List PathSegment
  bbox : Option (Vec3 × Vec3)
deriving DecidableEq

/-- Comment stripping of parse_file: raw.split(";")[0].split("(")[0].strip(). -/
def stripComments (raw : List Char) : List Char :=
  pyStrip ((raw.takeWhile (fun c => !(c = ';'))).takeWhile (fun c => !(c = '(')))

/-- Uppercase spellings of the recognized words. -/
def g90W : List Char := ['G', '9', '0']

/-- Uppercase spelling of the incremental-mode word. -/
def g91W : List Char := ['G', '9', '1']

/-- Uppercase spelling of the rapid-move prefix. -/
def g0W : List Char := ['G', '0']

/-- Uppercase spelling of the feed-move prefix. -/
def g1W : List Char := ['G', '1']

/-- One line of GCodeParser.parse_file: strip comments and whitespace,
skip empty residue, update the distance mode from G90/G91 substrings, and
if the uppercased residue starts with G0 or G1 emit a segment (a
malformed axis number raises, aborting the whole parse). -/
def parseStep (acc : ParseAcc) (raw : List Char) : Option ParseAcc :=
  let line := stripComments raw
  if line.isEmpty then some acc
  else
    let code := upperL line
    let a1 := if containsSubL g90W code then true else acc.absolute
    let a2 := if containsSubL g91W code then false else a1
    if startsWithL g0W code || startsWithL g1W code then
      match extract_move acc.position a2 code with
      | none => none
      | some se =>
        some ⟨se.2, a2,
          acc.segments ++ [⟨se.1, se.2, startsWithL g0W code⟩],
          some (bboxExtend acc.bbox se.1 se.2)⟩
    else some { acc with absolute := a2 }

/-- Initial parser state (GCodeParser.reset): origin position, absolute
mode, no segments, bounding-box sentinel untouched. -/
def parseInit : ParseAcc := ⟨⟨0, 0, 0⟩, true, [], none⟩

/-- Final Preview assembly of parse_file: when the bounding-box sentinel
was never touched both corners are the zero vector. -/
def previewOf (acc : ParseAcc) : Preview :=
  match acc.bbox with
  | none => ⟨acc.segments, ⟨0, 0, 0⟩, ⟨0, 0, 0⟩⟩
  | some lohi => ⟨acc.segments, lohi.1, lohi.2⟩

/-- Model of GCodeParser.parse_file on a list of already-split lines. -/
def parseFileLines (lines : List (List Char)) : Option Preview :=
  (foldOpt parseStep parseInit lines).map previewOf

/-- Model of GCodeParser.parse_file on the whole file text (the source
splits the decoded text with str.splitlines). -/
def parse_file (content : List Char) : Option Preview :=
  parseFileLines (pySplitlines content)

/-- Model of models.MachineStatus. -/
inductive MachineStatus where
  | idle
  | running
  | paused
  | homing
  | alarm
  | stopped
  | complete
deriving DecidableEq

/-- Model of models.SpindleDirection. -/
inductive SpindleDirection where
  | cw
  | ccw
  | off
deriving DecidableEq

/-- Model of models.WorkOffset. -/
structure WorkOffset where
  x : ℚ := 0
  y : ℚ := 0
  z : ℚ := 0
deriving DecidableEq

/-- Model of models.Tool (only the fields the controller reads). -/
structure Tool where
  id : ℕ
  name : List Char
  diameter_mm : ℚ
  length_mm : ℚ
  rpm : ℚ
  feed_mm_min : ℚ
  direction : SpindleDirection
  climb : Bool
deriving DecidableEq

/-- Model of models.MachineState with the defaults of the source. -/
structure MachineState where
  status : MachineStatus
  machine_pos : List ℚ := [0, 0, 0]
  work_offset : WorkOffset := {}
  feed_rate : ℚ := 0
  spindle_rpm : ℚ := 0
  spindle_dir : SpindleDirection := SpindleDirection.off
  tool : Option Tool := none
  current_line : ℕ := 0
  total_lines : ℕ := 0
  job_file : Option (List Char) := none
deriving DecidableEq

/-- Mutable state of machine.SimpleMoveTracker. -/
structure TrackerState where
  position : Vec3
  absolute : Bool
deriving DecidableEq

/-- Initial tracker state (SimpleMoveTracker.__init__). -/
def trackerInit : TrackerState := ⟨⟨0, 0, 0⟩, true⟩

/-- Model of SimpleMoveTracker.consume: uppercase the line, update the
distance mode from G90/G91 substrings, and if the line starts with G0 or
G1 run the axis-word loop (the same loop text as the parser) and move to
the target.  A malformed axis number raises (none), which in the source
kills the executor thread. -/
def consume (st : TrackerState) (line : List Char) : Option TrackerState :=
  let code := upperL line
  let a1 := if containsSubL g90W code then true else st.absolute
  let a2 := if containsSubL g91W code then false else a1
  if startsWithL g0W code || startsWithL g1W code then
    (axisLoop st.position a2 (splitWs code)).map (fun tg => ⟨tg, a2⟩)
  else some ⟨st.position, a2⟩

/-- One executor iteration as it affects the move tracker, in simulation
mode (serial link not connected): strip the raw line, skip it when empty,
otherwise feed it to the tracker (machine.MachineController._run_job). -/
def simStep (st : TrackerState) (raw : List Char) : Option TrackerState :=
  let line := pyStrip raw
  if line.isEmpty then some st else consume st line

/-- The tracker state after the executor has consumed a list of raw lines
in simulation mode, with no stop or pause intervening. -/
def simRun (st : TrackerState) (lines : List (List Char)) : Option TrackerState :=
  foldOpt simStep st lines

/-- The successive values the executor writes to current_line in
simulation mode: lines are indexed from 1; the observed stop flag at each
loop head is an arbitrary function of the index (covering every
interleaving of MachineController.stop with the executor); a line that is
empty after stripping is skipped without a write. -/
def runJobWrites (stopF : ℕ → Bool) : ℕ → List (List Char) → List ℕ
  | _, [] => []
  | idx, raw :: rest =>
    if stopF idx then []
    else if (pyStrip raw).isEmpty then runJobWrites stopF (idx + 1) rest
    else idx :: runJobWrites stopF (idx + 1) rest

/-- Controller-level mutable state relevant to the operator commands: the
machine state plus the stop flag (machine.MachineController). -/
structure CtrlState where
  state : MachineState
  stopFlag : Bool
deriving DecidableEq

/-- Model of MachineController.pause in simulation mode (the realtime feed
hold is only sent when the link is connected and does not touch state):
status moves to Paused only from Running. -/
def pauseCmd (cs : CtrlState) : CtrlState :=
  if cs.state.status = MachineStatus.running then
    ⟨{ cs.state with status := MachineStatus.paused }, cs.stopFlag⟩
  else cs

/-- Model of MachineController.resume: status moves to Running only from
Paused. -/
def resumeCmd (cs : CtrlState) : CtrlState :=
  if cs.state.status = MachineStatus.paused then
    ⟨{ cs.state with status := MachineStatus.running }, cs.stopFlag⟩
  else cs

/-- Model of MachineController.stop: set the stop flag and set status to
Stopped, unconditionally. -/
def stopCmd (cs : CtrlState) : CtrlState :=
  ⟨{ cs.state with status := MachineStatus.stopped }, true⟩

/-- Distinct failures of MachineController.start_job: FileNotFoundError
and the RuntimeError("Job already running") InvalidState failure. -/
inductive StartErr where
  | notFound
  | alreadyRunning
deriving DecidableEq

/-- Model of MachineController.start_job up to the executor-thread spawn.
The file-existence check and the tool lookup touch collaborators outside
the core, so they enter as parameters: fileExists is whether path_for of
the request filename exists, lineCnt is FileStore.line_count of the file,
toolLookup is the tool set_tool resolves (none when no tool_id is given
or the id is unknown).  Both raise paths occur before any state mutation,
so the input state is returned unchanged next to the error. -/
def start_job (cs : CtrlState) (fileExists : Bool) (lineCnt : ℕ)
    (filename : List Char) (toolLookup : Option Tool) : CtrlState × Option StartErr :=
  if fileExists = false then (cs, some StartErr.notFound)
  else if cs.state.status = MachineStatus.running ∨ cs.state.status = MachineStatus.paused then
    (cs, some StartErr.alreadyRunning)
  else
    let st1 := { cs.state with
      status := MachineStatus.running
      job_file := some filename
      current_line := 0
      total_lines := lineCnt }
    let st2 := { st1 with tool := toolLookup }
    let st3 :=
      match toolLookup with
      | some t => { st2 with spindle_rpm := t.rpm, spindle_dir := t.direction }
      | none => st2
    (⟨st3, false⟩, none)

/-- Uppercase spelling of the spindle words scanned by substring. -/
def m3W : List Char := ['M', '3']

/-- Uppercase spelling of the counter-clockwise spindle word. -/
def m4W : List Char := ['M', '4']

/-- Uppercase spelling of the spindle-off word. -/
def m5W : List Char := ['M', '5']

/-- The direction branch of MachineController._handle_spindle_tokens: a
substring scan of the uppercased line with first-match precedence M3,
then M4, then M5. -/
def spindleDirOf (line : List Char) : Option SpindleDirection :=
  let code := upperL line
  if containsSubL m3W code then some SpindleDirection.cw
  else if containsSubL m4W code then some SpindleDirection.ccw
  else if containsSubL m5W code then some SpindleDirection.off
  else none

/-- The rpm branch of _handle_spindle_tokens: when the uppercased line
contains the substring S, take the first whitespace token starting with S
and parse its remainder as a float; IndexError (no such token) and
ValueError (malformed float) are caught and leave rpm unset. -/
def spindleRpmOf (line : List Char) : Option ℚ :=
  let code := upperL line
  if containsSubL [ 'S' ] code then
    match (splitWs code).filter (fun t => startsWithL [ 'S' ] t) with
    | [] => none
    | t :: _ => py_float (t.drop 1)
  else none

/-- Model of MachineController._handle_spindle_tokens: update spindle_rpm
(when a numeric S token parsed) and spindle_dir (when one of M3/M4/M5 was
present) in the state, then call SpindleShim.apply with the now-current
pair; the returned pair is the argument list of that apply call. -/
def handle_spindle_tokens (st : MachineState) (line : List Char) :
    MachineState × (ℚ × SpindleDirection) :=
  let rpm := spindleRpmOf line
  let d := spindleDirOf line
  let st1 :=
    match rpm with
    | some r => { st with spindle_rpm := r }
    | none => st
  let st2 :=
    match d with
    | some dd => { st1 with spindle_dir := dd }
    | none => st1
  (st2, (st2.spindle_rpm, st2.spindle_dir))

/-- Sparse update payload built by GrblClient._parse_status.  The Python
payload is a dict; a field is an Option, none meaning the key is absent.
The status key is inserted unconditionally before the token loop, so
parse_status never leaves it none. -/
structure StatusPayload where
  status : Option MachineStatus
  machine_pos : Option (List ℚ)
  feed_rate : Option ℚ
  spindle_rpm : Option ℚ
  work_offset : Option (List ℚ)
deriving DecidableEq

/-- Strip of the frame delimiters: status_line.strip of the two
characters < and > removes any run of them from both ends. -/
def stripAngles (s : List Char) : List Char :=
  let isAngle : Char → Bool := fun c => c = '<' || c = '>'
  ((s.dropWhile isAngle).reverse.dropWhile isAngle).reverse

/-- The recognized state words of a status frame. -/
def stateWords : List (List Char) :=
  [['I', 'd', 'l', 'e'], ['R', 'u', 'n'], ['H', 'o', 'l', 'd'],
   ['A', 'l', 'a', 'r', 'm'], ['H', 'o', 'm', 'e']]

/-- The state-word translation table of _parse_status (its .get default
Idle is unreachable because the table covers all five words). -/
def stateWordMap (t : List Char) : MachineStatus :=
  if t = ['I', 'd', 'l', 'e'] then MachineStatus.idle
  else if t = ['R', 'u', 'n'] then MachineStatus.running
  else if t = ['H', 'o', 'l', 'd'] then MachineStatus.paused
  else if t = ['H', 'o', 'm', 'e'] then MachineStatus.homing
  else if t = ['A', 'l', 'a', 'r', 'm'] then MachineStatus.alarm
  else MachineStatus.idle

/-- Coordinate list after a field label: token.split(":")[1].split(",")
with every element parsed by float (a malformed element raises). -/
def coordsOf (t : List Char) : Option (List ℚ) :=
  match (splitOnChar ':' t).drop 1 with
  | [] => none
  | s :: _ => mapOpt py_float (splitOnChar ',' s)

/-- One token of the _parse_status loop: a recognized state word sets the
status field; MPos / WCO / FS prefixed tokens parse their numeric
payloads (raising, hence none, on malformed numbers or a missing second
FS value); Ov tokens and everything else are ignored. -/
def parseStatusTok (p : StatusPayload) (t : List Char) : Option StatusPayload :=
  let p :=
    if t ∈ stateWords then { p with status := some (stateWordMap t) } else p
  if startsWithL ['M', 'P', 'o', 's', ':'] t then
    (coordsOf t).map (fun cs => { p with machine_pos := some cs })
  else if startsWithL ['W', 'C', 'O', ':'] t then
    (coordsOf t).map (fun cs => { p with work_offset := some cs })
  else if startsWithL ['F', 'S', ':'] t then
    match (splitOnChar ':' t).drop 1 with
    | [] => none
    | s :: _ =>
      let vals := splitOnChar ',' s
      match vals with
      | [] => none
      | v0 :: rest =>
        match py_float v0 with
        | none => none
        | some f0 =>
          match rest with
          | [] => none
          | v1 :: _ =>
            (py_float v1).map (fun f1 =>
              { p with feed_rate := some f0, spindle_rpm := some f1 })
  else some p

/-- Model of GrblClient._parse_status: strip the angle delimiters, split
the fields on the | separator, and fold the token handler over them
starting from the payload that already carries status Idle. -/
def parse_status (status_line : List Char) : Option StatusPayload :=
  foldOpt parseStatusTok
    ⟨some MachineStatus.idle, none, none, none, none⟩
    (splitOnChar '|' (stripAngles status_line))

/-- Model of MachineController._ingest_status: copy each field present in
the payload into the machine state; a work_offset with fewer than three
components raises (none) at the indexing w[0], w[1], w[2].  (The source
mutates in place, so on that raise the earlier fields stay written; the
Option model discards the partial write, and every statement below about
a raising ingest is conditioned on success.) -/
def ingest_status (p : StatusPayload) (st : MachineState) : Option MachineState :=
  let st :=
    match p.status with
    | some s => { st with status := s }
    | none => st
  let st :=
    match p.machine_pos with
    | some m => { st with machine_pos := m }
    | none => st
  let st :=
    match p.feed_rate with
    | some f => { st with feed_rate := f }
    | none => st
  let st :=
    match p.spindle_rpm with
    | some r => { st with spindle_rpm := r }
    | none => st
  match p.work_offset with
  | some w =>
    match w.get? 0, w.get? 1, w.get? 2 with
    | some wx, some wy, some wz => some { st with work_offset := ⟨wx, wy, wz⟩ }
    | _, _, _ => none
  | none => some st

/-- Writes SpindleShim.apply performs on the VFD sink, in order. -/
inductive VfdEvent where
  | set_direction (d : SpindleDirection)
  | set_voltage (v : ℚ)
deriving DecidableEq

/-- Model of SpindleShim.apply: clamp the rpm into the configured band,
scale it linearly to the DAC reference voltage, and write direction then
voltage to the sink.  The configured values (Config.spindle_min_rpm,
Config.spindle_max_rpm, Config.dac_vref) are environment-driven, so they
are parameters; the max_rpm default argument of the source is dead, being
overwritten from Config on entry. -/
def spindle_apply (min_rpm max_rpm vref : ℚ) (rpm : ℚ) (direction : SpindleDirection) :
    List VfdEvent :=
  let rpm_clamped := min (max rpm min_rpm) max_rpm
  let volts := rpm_clamped / max_rpm * vref
  [VfdEvent.set_direction direction, VfdEvent.set_voltage volts]

/-- A POSIX path as pathlib keeps it: an absolute flag and the list of
components, with empty and single-dot components dropped at parse time
and double-dot components kept literally. -/
structure PPath where
  absolute : Bool
  parts : List (List Char)
deriving DecidableEq

/-- The literal double-dot path component. -/
def dotdot : List Char := ['.', '.']

/-- Parse of a path string into pathlib components. -/
def pathParse (s : List Char) : PPath :=
  ⟨s.head? = some '/',
   (splitOnChar '/' s).filter (fun p => !(p.isEmpty || p = ['.']))⟩

/-- Model of the pathlib / join operator: joining an absolute right side
discards the left side entirely; otherwise the components concatenate. -/
def pathJoin (root : PPath) (s : List Char) : PPath :=
  let p := pathParse s
  if p.absolute then p else ⟨root.absolute, root.parts ++ p.parts⟩

/-- Model of os.path.basename: the text after the last slash. -/
def basenameP (s : List Char) : List Char :=
  ((splitOnChar '/' s).getLast?).getD []

/-- Filesystem resolution of the kept double-dot components: a double dot
removes the preceding component (and at the root stays at the root). -/
def resolveParts (ps : List (List Char)) : List (List Char) :=
  ps.foldl (fun acc p => if p = dotdot then acc.dropLast else acc ++ [p]) []

/-- Whether a joined path stays inside the content root (the root itself
included), comparing after resolution. -/
def withinRoot (root : PPath) (q : PPath) : Bool :=
  (q.absolute = root.absolute) && startsWithL root.parts (resolveParts q.parts)

/-- Model of FileStore.save_file: the upload target path is the basename
of the supplied filename joined under the content root. -/
def save_file_path (root : PPath) (filename : List Char) : PPath :=
  pathJoin root (basenameP filename)

/-- Model of FileStore.path_for: the raw filename joined under the
content root (used by preview, download, and start_job). -/
def path_for (root : PPath) (filename : List Char) : PPath :=
  pathJoin root filename

/-- Model of the path FileStore.delete touches: the raw filename joined
under the content root. -/
def delete_path (root : PPath) (filename : List Char) : PPath :=
  pathJoin root filename

/-- Model of the path FileStore.read_text opens: the raw filename joined
under the content root. -/
def read_text_path (root : PPath) (filename : List Char) : PPath :=
  pathJoin root filename

/-- A raw line that makes parse_file emit a segment, read off the source
condition: after comment stripping and trimming, the uppercased residue
starts with G0 or G1 (for the empty residue both prefix tests fail, so no
separate emptiness test is needed). -/
def motionLineB (raw : List Char) : Bool :=
  let code := upperL (stripComments raw)
  startsWithL g0W code || startsWithL g1W code

/-- Formalization of the words of claim C6 (and spec section 8): the
count of physical lines whose first whitespace-separated token, after
comment stripping and trimming, is exactly G0 or G1. -/
def specFirstTokenCount (lines : List (List Char)) : ℕ :=
  List.countP (fun raw =>
    match (splitWs (upperL (stripComments raw))).head? with
    | some t => decide (t = g0W ∨ t = g1W)
    | none => false) lines

/-- Whether a status frame carries one of the five recognized state
words among its fields. -/
def hasStateWord (status_line : List Char) : Bool :=
  (splitOnChar '|' (stripAngles status_line)).any (fun t => decide (t ∈ stateWords))

/-- Invariant of the parser state: the last emitted segment (if any)
ends at the current simulated position. -/
def lastEndOk (acc : ParseAcc) : Prop :=
  ∀ sg : PathSegment, acc.segments.getLast? = some sg → sg.endPos = acc.position

/-- The malformed motion line of claim C1: G1 Xabc. -/
def c1BadLine : List Char := ['G', '1', ' ', 'X', 'a', 'b', 'c']

/-- File content with one comment-bearing motion line, G1 X5 ; X9: the
parser strips the comment, the move tracker does not. -/
def c2File : List Char := ['G', '1', ' ', 'X', '5', ' ', ';', ' ', 'X', '9']

/-- Comment-free one-move file content G1 X5. -/
def c2WFile : List Char := ['G', '1', ' ', 'X', '5']

/-- The preview parse_file produces for c2WFile. -/
def c2WPreview : Preview :=
  ⟨[⟨⟨0, 0, 0⟩, ⟨5, 0, 0⟩, false⟩], ⟨0, 0, 0⟩, ⟨5, 0, 0⟩⟩

/-- A controller state whose machine status is Running. -/
def c3RunningCS : CtrlState := ⟨{ status := MachineStatus.running }, false⟩

/-- A status frame carrying only a machine position and no state word. -/
def c4Frame : List Char :=
  ['<', 'M', 'P', 'o', 's', ':', '1', '.', '0', ',', '2', '.', '0', ',', '3', '.', '0', '>']

/-- A machine state whose status is Running. -/
def c4RunningSt : MachineState := { status := MachineStatus.running }

/-- The payload parse_status produces for c4Frame. -/
def c4Payload : StatusPayload := ⟨some MachineStatus.idle, some [1, 2, 3], none, none, none⟩

/-- A controller state whose machine status is Idle. -/
def c5IdleCS : CtrlState := ⟨{ status := MachineStatus.idle }, false⟩

/-- File content G10 L20 P1: a line whose first token is G10, not G0 or
G1, yet whose uppercased text starts with the two characters G1. -/
def c6File : List Char := ['G', '1', '0', ' ', 'L', '2', '0', ' ', 'P', '1']

/-- The one-line file content G0. -/
def c6WFile : List Char := ['G', '0']

/-- The preview parse_file produces for c6WFile. -/
def c6WPreview : Preview :=
  ⟨[⟨⟨0, 0, 0⟩, ⟨0, 0, 0⟩, true⟩], ⟨0, 0, 0⟩, ⟨0, 0, 0⟩⟩

/-- File content a VT b: the vertical tab is a line boundary for
str.splitlines but not for text-mode file iteration. -/
def c8File : List Char := ['a', Char.ofNat 11, 'b']

/-- File content a LF b, with only an ordinary newline. -/
def c8WFile : List Char := ['a', Char.ofNat 10, 'b']

/-- A controller state whose machine status is Idle (for the C8 witness). -/
def c8IdleCS : CtrlState := ⟨{ status := MachineStatus.idle }, false⟩

/-- A concrete absolute content root with a single component. -/
def c9Root : PPath := ⟨true, [['g', 'c', 'o', 'd', 'e']]⟩

/-- The escaping filename ../s. -/
def c9EscName : List Char := ['.', '.', '/', 's']

/-- An ordinary filename with a directory part, a/b. -/
def c9WName : List Char := ['a', '/', 'b']

/-- A machine state whose status is Idle (for the C10 witness). -/
def c10St : MachineState := { status := MachineStatus.idle }

/-- The program-end word M30, which contains the substring M3. -/
def c10M30 : List Char := ['M', '3', '0']

section Theorems

attribute [local semireducible] Rat.mul Rat.add Rat.inv Rat.sub Rat.ofScientific

theorem foldOpt_inv {α β : Type} {step : β → α → Option β} (P : β → Prop) :
    ∀ (l : List α) (b b2 : β),
      (∀ b0 a b1, a ∈ l → P b0 → step b0 a = some b1 → P b1) →
      P b → foldOpt step b l = some b2 → P b2 := by
  intro l
  induction l with
  | nil =>
    intro b b2 _ hb h
    simp only [foldOpt] at h
    injection h with h
    exact h ▸ hb
  | cons a t ih =>
    intro b b2 hstep hb h
    simp only [foldOpt] at h
    cases ha : step b a with
    | none => rw [ha] at h; exact absurd h (by simp)
    | some b1 =>
      rw [ha] at h
      exact ih b1 b2 (fun b0 x bx hx => hstep b0 x bx (List.mem_cons_of_mem a hx))
        (hstep b a b1 (List.mem_cons_self a t) hb ha) h

theorem takeWhile_all {α : Type} {p : α → Bool} :
    ∀ l : List α, (∀ c ∈ l, p c = true) → l.takeWhile p = l := by
  intro l h
  exact List.takeWhile_eq_self_iff.2 h

theorem startsWithL_append {α : Type} [DecidableEq α] :
    ∀ l t : List α, startsWithL l (l ++ t) = true := by
  intro l
  induction l with
  | nil => intro t; rfl
  | cons a s ih => intro t; simpa [startsWithL] using ih t

theorem startsWithL_refl {α : Type} [DecidableEq α] (l : List α) :
    startsWithL l l = true := by
  simpa using startsWithL_append l []

/-- Claim C1 counterexample: the file whose single line is G1 Xabc makes
parse_file raise (no preview is returned), instead of skipping the line
and producing a preview. -/
theorem c1_counterexample : parse_file c1BadLine = none := by decide

/-- C1 (corrected): a motion line with a malformed numeric axis token is
not skipped; parse_file raises on it (returns no preview), whatever the
rest of the file holds. -/
theorem c1_theorem (rest : List (List Char)) :
    parseFileLines (c1BadLine :: rest) = none := by
  have h : parseStep parseInit c1BadLine = none := by decide
  simp [parseFileLines, foldOpt, h]

theorem parseStep_segments_count (acc acc2 : ParseAcc) (raw : List Char)
    (h : parseStep acc raw = some acc2) :
    acc2.segments.length = acc.segments.length + (if motionLineB raw then 1 else 0) := by
  by_cases hemp : (stripComments raw).isEmpty
  · have hm : motionLineB raw = false := by
      have : stripComments raw = [] := by
        cases hsc : stripComments raw with
        | nil => rfl
        | cons c t => rw [hsc] at hemp; simp [List.isEmpty] at hemp
      simp [motionLineB, this, upperL, startsWithL, g0W]
    rw [parseStep] at h
    rw [if_pos hemp] at h
    cases h
    simp [hm]
  · rw [parseStep] at h
    rw [if_neg hemp] at h
    by_cases hmot :
        (startsWithL g0W (upperL (stripComments raw))
          || startsWithL g1W (upperL (stripComments raw))) = true
    · have hm : motionLineB raw = true := hmot
      simp only [hmot, if_true] at h
      cases hax : extract_move acc.position
          (if containsSubL g91W (upperL (stripComments raw)) then false
           else if containsSubL g90W (upperL (stripComments raw)) then true
           else acc.absolute) (upperL (stripComments raw)) with
      | none => rw [hax] at h; exact absurd h (by simp)
      | some se =>
        rw [hax] at h
        cases h
        simp [hm]
    · have hm : motionLineB raw = false := by
        simpa [motionLineB] using hmot
      simp only [hmot, if_false] at h
      cases h
      simp [hm]

theorem foldOpt_segments_count :
    ∀ (lines : List (List Char)) (acc acc2 : ParseAcc),
      foldOpt parseStep acc lines = some acc2 →
      acc2.segments.length = acc.segments.length + List.countP motionLineB lines := by
  intro lines
  induction lines with
  | nil =>
    intro acc acc2 h
    simp only [foldOpt] at h
    cases h
    simp
  | cons raw rest ih =>
    intro acc acc2 h
    simp only [foldOpt] at h
    cases ha : parseStep acc raw with
    | none => rw [ha] at h; exact absurd h (by simp)
    | some acc1 =>
      rw [ha] at h
      have h1 := parseStep_segments_count acc acc1 raw ha
      have h2 := ih acc1 acc2 h
      rw [h2, h1, List.countP_cons]
      by_cases hm : motionLineB raw <;> (simp [hm]; try omega)

/-- Claim C6 counterexample: the file G10 L20 P1 yields one segment, but
no physical line has first token G0 or G1 (the first token is G10). -/
theorem c6_counterexample :
    (parse_file c6File).map (fun pv => pv.segments.length) = some 1
    ∧ specFirstTokenCount (pySplitlines c6File) = 0 := by decide

/-- C6 (corrected): the segment count equals the number of physical lines
whose comment-stripped trimmed uppercased text starts with the prefix G0
or G1 (so a G10 line also counts), whenever parsing succeeds. -/
theorem c6_theorem (lines : List (List Char)) (pv : Preview)
    (h : parseFileLines lines = some pv) :
    pv.segments.length = List.countP motionLineB lines := by
  rw [parseFileLines] at h
  cases hf : foldOpt parseStep parseInit lines with
  | none => rw [hf] at h; exact absurd h (by simp)
  | some acc2 =>
    rw [hf] at h
    have hseg : pv.segments = acc2.segments := by
      cases h
      cases hbb : acc2.bbox <;> simp [previewOf, hbb]
    rw [hseg]
    simpa [parseInit] using foldOpt_segments_count lines parseInit acc2 hf

/-- Witness for C6 at the one-line file G0. -/
theorem c6_witness : c6WPreview.segments.length = List.countP motionLineB [c6WFile] :=
  c6_theorem [c6WFile] c6WPreview (by decide)

/-- C3 (confirmed): start_job called with an existing file while the
status is Running or Paused fails with the already-running error, which
is distinct from the not-found error, and returns the controller state
unchanged (the source raises before any assignment). -/
theorem c3_theorem (cs : CtrlState) (fileExists : Bool) (lineCnt : ℕ)
    (filename : List Char) (toolLookup : Option Tool)
    (hex : fileExists = true)
    (hst : cs.state.status = MachineStatus.running ∨ cs.state.status = MachineStatus.paused) :
    start_job cs fileExists lineCnt filename toolLookup = (cs, some StartErr.alreadyRunning)
    ∧ StartErr.alreadyRunning ≠ StartErr.notFound := by
  subst hex
  refine ⟨?_, by decide⟩
  rw [start_job]
  rw [if_neg (by decide : ¬(true = false))]
  rw [if_pos hst]

/-- Witness for C3 at a Running controller state. -/
theorem c3_witness :
    start_job c3RunningCS true 3 ['f'] none = (c3RunningCS, some StartErr.alreadyRunning)
    ∧ StartErr.alreadyRunning ≠ StartErr.notFound :=
  c3_theorem c3RunningCS true 3 ['f'] none rfl (Or.inl rfl)

/-- Claim C5 counterexample: from Idle, where the state-machine graph
shows no stop transition, stop() still changes the status field, to
Stopped. -/
theorem c5_counterexample :
    c5IdleCS.state.status = MachineStatus.idle
    ∧ (stopCmd c5IdleCS).state.status = MachineStatus.stopped
    ∧ MachineStatus.stopped ≠ MachineStatus.idle := by decide

/-- C5 (corrected): pause and resume leave the status field unchanged
outside their preconditions, but stop sets status to Stopped
unconditionally, so calling stop() in a status outside Running and
Paused (such as Idle or Complete) does change the status field. -/
theorem c5_theorem (cs : CtrlState)
    (hr : cs.state.status ≠ MachineStatus.running)
    (hp : cs.state.status ≠ MachineStatus.paused) :
    (stopCmd cs).state.status = MachineStatus.stopped
    ∧ (pauseCmd cs).state.status = cs.state.status
    ∧ (resumeCmd cs).state.status = cs.state.status := by
  refine ⟨rfl, ?_, ?_⟩
  · rw [pauseCmd, if_neg hr]
  · rw [resumeCmd, if_neg hp]

/-- Witness for C5 at an Idle controller state. -/
theorem c5_witness :
    (stopCmd c5IdleCS).state.status = MachineStatus.stopped
    ∧ (pauseCmd c5IdleCS).state.status = c5IdleCS.state.status
    ∧ (resumeCmd c5IdleCS).state.status = c5IdleCS.state.status :=
  c5_theorem c5IdleCS (by decide) (by decide)

/-- C7 (confirmed): with configured bounds 0 ≤ min_rpm ≤ max_rpm,
0 < max_rpm and a positive reference voltage, SpindleShim.apply writes
direction first and then a voltage v with 0 ≤ v ≤ vref and
v / vref = clamp(rpm, min_rpm, max_rpm) / max_rpm. -/
theorem c7_theorem (min_rpm max_rpm vref rpm : ℚ) (d : SpindleDirection)
    (h0 : 0 ≤ min_rpm) (_h1 : min_rpm ≤ max_rpm) (h2 : 0 < max_rpm) (h3 : 0 < vref) :
    spindle_apply min_rpm max_rpm vref rpm d =
      [VfdEvent.set_direction d,
       VfdEvent.set_voltage (min (max rpm min_rpm) max_rpm / max_rpm * vref)]
    ∧ 0 ≤ min (max rpm min_rpm) max_rpm / max_rpm * vref
    ∧ min (max rpm min_rpm) max_rpm / max_rpm * vref ≤ vref
    ∧ (min (max rpm min_rpm) max_rpm / max_rpm * vref) / vref
        = min (max rpm min_rpm) max_rpm / max_rpm := by
  have hc0 : 0 ≤ min (max rpm min_rpm) max_rpm :=
    le_min (h0.trans (le_max_right rpm min_rpm)) h2.le
  have hc1 : min (max rpm min_rpm) max_rpm ≤ max_rpm := min_le_right _ _
  refine ⟨rfl, ?_, ?_, ?_⟩
  · exact mul_nonneg (div_nonneg hc0 h2.le) h3.le
  · have hle1 : min (max rpm min_rpm) max_rpm / max_rpm ≤ 1 := (div_le_one h2).2 hc1
    calc min (max rpm min_rpm) max_rpm / max_rpm * vref
        ≤ 1 * vref := mul_le_mul_of_nonneg_right hle1 h3.le
      _ = vref := one_mul vref
  · exact mul_div_cancel_right₀ _ (ne_of_gt h3)

/-- Witness for C7 with the default configuration (min 0, max 24000,
vref 5) at the over-limit request of 30000 rpm clockwise. -/
theorem c7_witness :
    spindle_apply 0 24000 5 30000 SpindleDirection.cw =
      [VfdEvent.set_direction SpindleDirection.cw,
       VfdEvent.set_voltage (min (max 30000 0) 24000 / 24000 * 5)]
    ∧ 0 ≤ min (max (30000 : ℚ) 0) 24000 / 24000 * 5
    ∧ min (max (30000 : ℚ) 0) 24000 / 24000 * 5 ≤ 5
    ∧ (min (max (30000 : ℚ) 0) 24000 / 24000 * 5) / 5
        = min (max 30000 0) 24000 / 24000 :=
  c7_theorem 0 24000 5 30000 SpindleDirection.cw (by norm_num) (by norm_num)
    (by norm_num) (by norm_num)

theorem splitOnCharGo_no_sep (sep : Char) :
    ∀ (s cur : List Char), sep ∉ cur →
      ∀ l ∈ splitOnCharGo sep cur s, sep ∉ l := by
  intro s
  induction s with
  | nil =>
    intro cur hcur l hl
    simp only [splitOnCharGo, List.mem_singleton] at hl
    subst hl
    simpa using hcur
  | cons c rest ih =>
    intro cur hcur l hl
    rw [splitOnCharGo] at hl
    by_cases hc : c = sep
    · rw [if_pos hc] at hl
      rcases List.mem_cons.1 hl with h | h
      · subst h; simpa using hcur
      · exact ih [] (by simp) l h
    · rw [if_neg hc] at hl
      refine ih (c :: cur) ?_ l hl
      intro hmem
      rcases List.mem_cons.1 hmem with h | h
      · exact hc h.symm
      · exact hcur h

theorem basenameP_no_slash (s : List Char) : '/' ∉ basenameP s := by
  rw [basenameP]
  cases hgl : (splitOnChar '/' s).getLast? with
  | none => simp
  | some l =>
    simp only [Option.getD_some]
    exact splitOnCharGo_no_sep '/' s [] (by simp) l (List.mem_of_getLast?_eq_some hgl)

theorem splitOnCharGo_free (sep : Char) :
    ∀ (s cur : List Char), (∀ c ∈ s, c ≠ sep) →
      splitOnCharGo sep cur s = [cur.reverse ++ s] := by
  intro s
  induction s with
  | nil => intro cur _; simp [splitOnCharGo]
  | cons c rest ih =>
    intro cur h
    rw [splitOnCharGo, if_neg (h c (List.mem_cons_self c rest))]
    rw [ih (c :: cur) (fun x hx => h x (List.mem_cons_of_mem c hx))]
    simp

theorem foldl_resolve_free :
    ∀ (ps acc : List (List Char)), (∀ p ∈ ps, p ≠ dotdot) →
      List.foldl (fun acc p => if p = dotdot then acc.dropLast else acc ++ [p]) acc ps
        = acc ++ ps := by
  intro ps
  induction ps with
  | nil => intro acc _; simp
  | cons p rest ih =>
    intro acc h
    rw [List.foldl_cons, if_neg (h p (List.mem_cons_self p rest))]
    rw [ih (acc ++ [p]) (fun x hx => h x (List.mem_cons_of_mem p hx))]
    simp

theorem resolveParts_free (ps : List (List Char)) (h : ∀ p ∈ ps, p ≠ dotdot) :
    resolveParts ps = ps := by
  rw [resolveParts]
  simpa using foldl_resolve_free ps [] h

/-- Claim C9 counterexample: the filename ../s is not resolved to its
basename by path_for (used by preview, download and job start): the
resulting path escapes the content root. -/
theorem c9_counterexample :
    path_for c9Root c9EscName ≠ pathJoin c9Root (basenameP c9EscName)
    ∧ withinRoot c9Root (path_for c9Root c9EscName) = false := by decide

/-- C9 (corrected): only save_file (upload) basenames the supplied
filename, and its target stays inside the content root whenever that
basename is not the double-dot component; delete, preview (read_text)
and start_job (path_for) join the raw filename under the root, so a
filename such as ../s resolves outside the content root. -/
theorem c9_theorem (root : PPath) (filename : List Char)
    (hroot : ∀ p ∈ root.parts, p ≠ dotdot) :
    save_file_path root filename = pathJoin root (basenameP filename)
    ∧ '/' ∉ basenameP filename
    ∧ (basenameP filename ≠ dotdot →
        withinRoot root (save_file_path root filename) = true)
    ∧ path_for root filename = pathJoin root filename
    ∧ delete_path root filename = pathJoin root filename
    ∧ read_text_path root filename = pathJoin root filename := by
  refine ⟨rfl, basenameP_no_slash filename, fun hbn => ?_, rfl, rfl, rfl⟩
  have hnos : '/' ∉ basenameP filename := basenameP_no_slash filename
  have hsplit : splitOnChar '/' (basenameP filename) = [basenameP filename] := by
    rw [splitOnChar]
    simpa using splitOnCharGo_free '/' (basenameP filename) []
      (fun c hc hceq => hnos (hceq ▸ hc))
  have habs : (pathParse (basenameP filename)).absolute = false := by
    rw [pathParse]
    simp only [decide_eq_false_iff_not]
    cases hb : basenameP filename with
    | nil => simp
    | cons c t =>
      simp only [List.head?, Option.some.injEq]
      intro hc
      exact hnos (by rw [hb, hc]; exact List.mem_cons_self '/' t)
  have hparts : (pathParse (basenameP filename)).parts =
      List.filter (fun p => !(p.isEmpty || decide (p = ['.'])))
        [basenameP filename] := by
    rw [pathParse, hsplit]
  rw [save_file_path, pathJoin]
  rw [if_neg (by rw [habs]; exact Bool.false_ne_true)]
  rw [withinRoot]
  simp only [hparts]
  by_cases hf : (!((basenameP filename).isEmpty || decide (basenameP filename = ['.']))) = true
  · simp only [List.filter_cons, List.filter_nil]
    rw [if_pos hf]
    rw [resolveParts_free (root.parts ++ [basenameP filename])
      (by
        intro p hp
        rcases List.mem_append.1 hp with h | h
        · exact hroot p h
        · rw [List.mem_singleton] at h
          exact h ▸ hbn)]
    simp [startsWithL_append]
  · simp only [List.filter_cons, List.filter_nil]
    rw [if_neg hf, List.append_nil]
    rw [resolveParts_free root.parts hroot]
    simp [startsWithL_refl]

/-- Witness for C9: uploading the filename a/b lands inside the content
root. -/
theorem c9_witness : withinRoot c9Root (save_file_path c9Root c9WName) = true :=
  (c9_theorem c9Root c9WName (by decide)).2.2.1 (by decide)

theorem parseStatusTok_status (p p2 : StatusPayload) (t : List Char)
    (h : parseStatusTok p t = some p2) :
    p2.status = (if t ∈ stateWords then some (stateWordMap t) else p.status) := by
  simp only [parseStatusTok] at h
  split_ifs at h ⊢ with hsw h1 h2 h3 <;>
    (repeat' split at h) <;>
    first
      | (rcases Option.map_eq_some'.1 h with ⟨w, hw, hp2⟩; subst hp2; rfl)
      | (injection h with h2; subst h2; rfl)
      | simp at h

theorem parse_status_status (line : List Char) (p : StatusPayload)
    (h : parse_status line = some p) :
    p.status.isSome = true
    ∧ (hasStateWord line = false → p.status = some MachineStatus.idle) := by
  rw [parse_status] at h
  constructor
  · refine foldOpt_inv (fun q => q.status.isSome = true) _ _ _
      (fun b0 a b1 _ hb hstep => ?_) rfl h
    show b1.status.isSome = true
    rw [parseStatusTok_status b0 b1 a hstep]
    split
    · rfl
    · exact hb
  · intro hnw
    have hall : ∀ t ∈ splitOnChar '|' (stripAngles line), ¬ t ∈ stateWords := by
      rw [hasStateWord] at hnw
      simpa using List.any_eq_false.1 hnw
    refine foldOpt_inv (fun q => q.status = some MachineStatus.idle) _ _ _
      (fun b0 a b1 ha hb hstep => ?_) rfl h
    show b1.status = some MachineStatus.idle
    rw [parseStatusTok_status b0 b1 a hstep, if_neg (hall a ha)]
    exact hb

theorem ingest_status_sparse (p : StatusPayload) (st st2 : MachineState)
    (h : ingest_status p st = some st2) :
    st2.status = p.status.getD st.status
    ∧ (p.machine_pos = none → st2.machine_pos = st.machine_pos)
    ∧ (p.feed_rate = none → st2.feed_rate = st.feed_rate)
    ∧ (p.spindle_rpm = none → st2.spindle_rpm = st.spindle_rpm)
    ∧ (p.work_offset = none → st2.work_offset = st.work_offset) := by
  rcases p with ⟨ps, pm, pf, pr, pw⟩
  rcases pw with _ | w <;> rw [ingest_status] at h <;> dsimp only at h
  · injection h with h
    subst h
    cases ps <;> cases pm <;> cases pf <;> cases pr <;>
      exact ⟨by simp, by simp, by simp, by simp, by simp⟩
  · split at h
    · injection h with h
      subst h
      cases ps <;> cases pm <;> cases pf <;> cases pr <;>
        exact ⟨by simp, by simp, by simp, by simp, by simp⟩
    · exact absurd h (by simp)

/-- Claim C4 counterexample: a frame carrying only a machine position and
no recognized state word does not leave the status field unchanged: from
Running, ingesting it sets status to Idle, because the parser seeds every
payload with a default Idle status. -/
theorem c4_counterexample :
    c4RunningSt.status = MachineStatus.running
    ∧ ((parse_status c4Frame).bind (fun p => ingest_status p c4RunningSt)).map
        (fun st => st.status) = some MachineStatus.idle
    ∧ MachineStatus.idle ≠ MachineStatus.running := by decide

/-- C4 (corrected): position, feed, rpm and offset updates are sparse
(absent fields leave the state untouched), but the parser unconditionally
seeds the payload with a status (Idle when no recognized state word is
present), so every delivered frame overwrites the status field. -/
theorem c4_theorem (frame : List Char) (p : StatusPayload)
    (hp : parse_status frame = some p) :
    p.status.isSome = true
    ∧ (hasStateWord frame = false → p.status = some MachineStatus.idle)
    ∧ ∀ st st2 : MachineState, ingest_status p st = some st2 →
        st2.status = p.status.getD st.status
        ∧ (p.machine_pos = none → st2.machine_pos = st.machine_pos)
        ∧ (p.feed_rate = none → st2.feed_rate = st.feed_rate)
        ∧ (p.spindle_rpm = none → st2.spindle_rpm = st.spindle_rpm)
        ∧ (p.work_offset = none → st2.work_offset = st.work_offset) := by
  obtain ⟨h1, h2⟩ := parse_status_status frame p hp
  exact ⟨h1, h2, fun st st2 h => ingest_status_sparse p st st2 h⟩

/-- Witness for C4 at the position-only frame. -/
theorem c4_witness : c4Payload.status = some MachineStatus.idle :=
  (c4_theorem c4Frame c4Payload (by decide)).2.1 (by decide)

/-- C10 (confirmed): the spindle-token scan is substring containment with
M3-first precedence: any executed line whose uppercased text contains M3
anywhere (M30 included) sets spindle_dir to CW and the shim is reapplied
with direction CW; a CCW or Off outcome can occur only when no M3
substring is present. -/
theorem c10_theorem (st : MachineState) (line : List Char) :
    (containsSubL m3W (upperL line) = true →
      spindleDirOf line = some SpindleDirection.cw
      ∧ (handle_spindle_tokens st line).1.spindle_dir = SpindleDirection.cw
      ∧ (handle_spindle_tokens st line).2
          = ((handle_spindle_tokens st line).1.spindle_rpm, SpindleDirection.cw))
    ∧ (spindleDirOf line = some SpindleDirection.ccw ↔
        containsSubL m3W (upperL line) = false ∧ containsSubL m4W (upperL line) = true)
    ∧ (spindleDirOf line = some SpindleDirection.off ↔
        containsSubL m3W (upperL line) = false ∧ containsSubL m4W (upperL line) = false
        ∧ containsSubL m5W (upperL line) = true) := by
  refine ⟨fun h3 => ?_, ?_, ?_⟩
  · have hd : spindleDirOf line = some SpindleDirection.cw := by
      rw [spindleDirOf]
      simp only [h3, if_true]
    refine ⟨hd, ?_, ?_⟩ <;>
      (rw [handle_spindle_tokens]
       cases hr : spindleRpmOf line <;> simp [hd, hr])
  · rw [spindleDirOf]
    cases h3 : containsSubL m3W (upperL line) <;>
      cases h4 : containsSubL m4W (upperL line) <;>
        cases h5 : containsSubL m5W (upperL line) <;> simp
  · rw [spindleDirOf]
    cases h3 : containsSubL m3W (upperL line) <;>
      cases h4 : containsSubL m4W (upperL line) <;>
        cases h5 : containsSubL m5W (upperL line) <;> simp

/-- Witness for C10 at the program-end line M30. -/
theorem c10_witness :
    spindleDirOf c10M30 = some SpindleDirection.cw
    ∧ (handle_spindle_tokens c10St c10M30).1.spindle_dir = SpindleDirection.cw
    ∧ (handle_spindle_tokens c10St c10M30).2
        = ((handle_spindle_tokens c10St c10M30).1.spindle_rpm, SpindleDirection.cw) :=
  (c10_theorem c10St c10M30).1 (by decide)


theorem slGo_congr_aux (sep1 sep2 : Char → Bool) :
    ∀ (n : ℕ) (cur s : List Char), s.length ≤ n → (∀ c ∈ s, sep1 c = sep2 c) →
      slGo sep1 cur s = slGo sep2 cur s := by
  intro n
  induction n with
  | zero =>
    intro cur s hlen _
    have hnil : s = [] := List.eq_nil_of_length_eq_zero (Nat.le_zero.1 hlen)
    subst hnil
    rfl
  | succ n ih =>
    intro cur s hlen h
    match s with
    | [] => rfl
    | [c] =>
      have hc := h c (List.mem_singleton.2 rfl)
      simp only [slGo]
      rw [hc]
    | c :: d :: rest =>
      have hc := h c (List.mem_cons_self c (d :: rest))
      have hdrest : ∀ x ∈ d :: rest, sep1 x = sep2 x :=
        fun x hx => h x (List.mem_cons_of_mem c hx)
      have hrest : ∀ x ∈ rest, sep1 x = sep2 x :=
        fun x hx => hdrest x (List.mem_cons_of_mem d hx)
      have hlen2 : (d :: rest).length ≤ n := by
        simp only [List.length_cons] at hlen ⊢
        omega
      have hlen3 : rest.length ≤ n := by
        simp only [List.length_cons] at hlen
        omega
      simp only [slGo]
      rw [hc]
      by_cases h1 : sep2 c = true
      · rw [if_pos h1, if_pos h1]
        by_cases h2 : (c = Char.ofNat 13 && d = Char.ofNat 10) = true
        · rw [if_pos h2, if_pos h2, ih [] rest hlen3 hrest]
        · rw [if_neg h2, if_neg h2, ih [] (d :: rest) hlen2 hdrest]
      · rw [if_neg h1, if_neg h1, ih (c :: cur) (d :: rest) hlen2 hdrest]

theorem slGo_congr (sep1 sep2 : Char → Bool) (cur s : List Char)
    (h : ∀ c ∈ s, sep1 c = sep2 c) : slGo sep1 cur s = slGo sep2 cur s :=
  slGo_congr_aux sep1 sep2 s.length cur s (le_refl _) h

theorem pySplitlines_eq_fileLines (content : List Char)
    (hex : ∀ c ∈ content, exoticSep c = false) :
    pySplitlines content = fileLines content := by
  rw [pySplitlines, fileLines]
  refine slGo_congr pySep univSep [] content (fun c hc => ?_)
  rw [pySep, hex c hc]
  exact Bool.or_false (univSep c)

theorem runJobWrites_mem (stopF : ℕ → Bool) :
    ∀ (lines : List (List Char)) (i v : ℕ), v ∈ runJobWrites stopF i lines →
      i ≤ v ∧ v < i + lines.length := by
  intro lines
  induction lines with
  | nil => intro i v hv; simp [runJobWrites] at hv
  | cons raw rest ih =>
    intro i v hv
    rw [runJobWrites] at hv
    by_cases h1 : stopF i = true
    · rw [if_pos h1] at hv
      simp at hv
    · rw [if_neg h1] at hv
      by_cases h2 : (pyStrip raw).isEmpty = true
      · rw [if_pos h2] at hv
        have hb := ih (i + 1) v hv
        simp only [List.length_cons]
        omega
      · rw [if_neg h2] at hv
        rcases List.mem_cons.1 hv with h | h
        · subst h
          simp only [List.length_cons]
          omega
        · have hb := ih (i + 1) v h
          simp only [List.length_cons]
          omega

theorem runJobWrites_chain (stopF : ℕ → Bool) :
    ∀ (lines : List (List Char)) (i : ℕ),
      List.Chain' (· ≤ ·) (runJobWrites stopF i lines) := by
  intro lines
  induction lines with
  | nil => intro i; simp [runJobWrites]
  | cons raw rest ih =>
    intro i
    rw [runJobWrites]
    by_cases h1 : stopF i = true
    · rw [if_pos h1]
      exact List.chain'_nil
    · rw [if_neg h1]
      by_cases h2 : (pyStrip raw).isEmpty = true
      · rw [if_pos h2]
        exact ih (i + 1)
      · rw [if_neg h2]
        refine List.chain'_cons'.2 ⟨fun y hy => ?_, ih (i + 1)⟩
        have hmem : y ∈ runJobWrites stopF (i + 1) rest := by
          cases hr : runJobWrites stopF (i + 1) rest with
          | nil => rw [hr] at hy; simp at hy
          | cons a t =>
            rw [hr] at hy
            simp only [List.head?_cons, Option.mem_some_iff] at hy
            rw [← hy]
            exact List.mem_cons_self a t
        have := (runJobWrites_mem stopF rest (i + 1) y hmem).1
        omega

/-- Claim C8 counterexample: the two-line-by-splitlines file a VT b has a
stored total_lines of 1 (text-mode iteration sees one line), yet the
executor writes current_line = 2, violating current_line ≤ total_lines. -/
theorem c8_counterexample :
    runJobWrites (fun _ => false) 1 (pySplitlines c8File) = [1, 2]
    ∧ line_count c8File = 1
    ∧ ¬(2 ≤ 1) := by decide

/-- C8 (corrected): current_line is reset to 0 by start_job and the
executor writes a non-decreasing sequence of values under any observed
stop-flag behaviour; the bound current_line ≤ total_lines holds whenever
the file contains none of the splitlines-only separators (VT, FF, FS,
GS, RS, NEL, LS, PS), since total_lines is counted by text-mode
iteration while the executor enumerates str.splitlines. -/
theorem c8_theorem (cs : CtrlState) (lineCnt : ℕ) (filename : List Char)
    (toolLookup : Option Tool) (stopF : ℕ → Bool) (content : List Char)
    (hst : ¬(cs.state.status = MachineStatus.running
              ∨ cs.state.status = MachineStatus.paused))
    (hex : ∀ c ∈ content, exoticSep c = false) :
    (start_job cs true lineCnt filename toolLookup).1.state.current_line = 0
    ∧ List.Chain' (· ≤ ·) (0 :: runJobWrites stopF 1 (pySplitlines content))
    ∧ ∀ v ∈ runJobWrites stopF 1 (pySplitlines content), v ≤ line_count content := by
  refine ⟨?_, ?_, ?_⟩
  · rw [start_job]
    rw [if_neg (by decide : ¬(true = false)), if_neg hst]
    cases toolLookup <;> rfl
  · exact List.chain'_cons'.2 ⟨fun y _ => Nat.zero_le y, runJobWrites_chain stopF _ 1⟩
  · intro v hv
    have hb := (runJobWrites_mem stopF (pySplitlines content) 1 v hv).2
    rw [pySplitlines_eq_fileLines content hex] at hb
    rw [line_count]
    omega

/-- Witness for C8 at an Idle controller and the plain two-line file. -/
theorem c8_witness :
    (start_job c8IdleCS true 2 ['f'] none).1.state.current_line = 0 :=
  (c8_theorem c8IdleCS 2 ['f'] none (fun _ => false) c8WFile (by decide) (by decide)).1

theorem stripComments_eq_strip (raw : List Char)
    (h : ∀ c ∈ raw, c ≠ ';' ∧ c ≠ '(') : stripComments raw = pyStrip raw := by
  rw [stripComments]
  rw [takeWhile_all raw (fun c hc => by simp [(h c hc).1])]
  rw [takeWhile_all raw (fun c hc => by simp [(h c hc).2])]

theorem previewOf_segments (acc : ParseAcc) : (previewOf acc).segments = acc.segments := by
  rw [previewOf]
  split <;> rfl

theorem parseStep_simStep (acc acc2 : ParseAcc) (raw : List Char)
    (hraw : ∀ c ∈ raw, c ≠ ';' ∧ c ≠ '(')
    (h : parseStep acc raw = some acc2) :
    simStep ⟨acc.position, acc.absolute⟩ raw = some ⟨acc2.position, acc2.absolute⟩ := by
  have hsc : stripComments raw = pyStrip raw := stripComments_eq_strip raw hraw
  rw [simStep, ← hsc]
  simp only [parseStep] at h
  by_cases hemp : (stripComments raw).isEmpty = true
  · rw [if_pos hemp] at h
    injection h with h
    subst h
    rw [if_pos hemp]
  · rw [if_neg hemp] at h
    rw [if_neg hemp]
    rw [consume]
    dsimp only
    by_cases hmot : (startsWithL g0W (upperL (stripComments raw))
        || startsWithL g1W (upperL (stripComments raw))) = true
    · rw [if_pos hmot] at h ⊢
      cases hax : extract_move acc.position
          (if containsSubL g91W (upperL (stripComments raw)) then false
           else if containsSubL g90W (upperL (stripComments raw)) then true
           else acc.absolute) (upperL (stripComments raw)) with
      | none => rw [hax] at h; simp at h
      | some se =>
        rw [hax] at h
        injection h with h
        subst h
        rw [extract_move] at hax
        rcases Option.map_eq_some'.1 hax with ⟨tg, htg, hse⟩
        rw [htg]
        simp [← hse]
    · rw [if_neg hmot] at h ⊢
      injection h with h
      subst h
      rfl

theorem foldOpt_parse_sim :
    ∀ (lines : List (List Char)) (acc acc2 : ParseAcc),
      (∀ l ∈ lines, ∀ c ∈ l, c ≠ ';' ∧ c ≠ '(') →
      foldOpt parseStep acc lines = some acc2 →
      foldOpt simStep ⟨acc.position, acc.absolute⟩ lines
        = some ⟨acc2.position, acc2.absolute⟩ := by
  intro lines
  induction lines with
  | nil =>
    intro acc acc2 _ h
    simp only [foldOpt] at h ⊢
    injection h with h
    rw [h]
  | cons raw rest ih =>
    intro acc acc2 hc h
    simp only [foldOpt] at h ⊢
    cases ha : parseStep acc raw with
    | none => rw [ha] at h; simp at h
    | some acc1 =>
      rw [ha] at h
      rw [parseStep_simStep acc acc1 raw (hc raw (List.mem_cons_self raw rest)) ha]
      exact ih acc1 acc2 (fun l hl => hc l (List.mem_cons_of_mem raw hl)) h

theorem parseStep_lastEnd (acc acc2 : ParseAcc) (raw : List Char)
    (h : parseStep acc raw = some acc2) (hinv : lastEndOk acc) : lastEndOk acc2 := by
  simp only [parseStep] at h
  by_cases hemp : (stripComments raw).isEmpty = true
  · rw [if_pos hemp] at h
    injection h with h
    subst h
    exact hinv
  · rw [if_neg hemp] at h
    by_cases hmot : (startsWithL g0W (upperL (stripComments raw))
        || startsWithL g1W (upperL (stripComments raw))) = true
    · rw [if_pos hmot] at h
      cases hax : extract_move acc.position
          (if containsSubL g91W (upperL (stripComments raw)) then false
           else if containsSubL g90W (upperL (stripComments raw)) then true
           else acc.absolute) (upperL (stripComments raw)) with
      | none => rw [hax] at h; simp at h
      | some se =>
        rw [hax] at h
        injection h with h
        subst h
        intro sg hsg
        rw [List.getLast?_concat] at hsg
        injection hsg with hsg
        rw [← hsg]
    · rw [if_neg hmot] at h
      injection h with h
      subst h
      exact hinv

theorem slGo_chars_aux (sep : Char → Bool) :
    ∀ (n : ℕ) (cur s : List Char), s.length ≤ n →
      ∀ l ∈ slGo sep cur s, ∀ c ∈ l, c ∈ cur ∨ c ∈ s := by
  intro n
  induction n with
  | zero =>
    intro cur s hlen l hl c hc
    have hnil : s = [] := List.eq_nil_of_length_eq_zero (Nat.le_zero.1 hlen)
    subst hnil
    rw [slGo] at hl
    by_cases hcur : cur.isEmpty = true
    · rw [if_pos hcur] at hl
      simp at hl
    · rw [if_neg hcur] at hl
      rw [List.mem_singleton] at hl
      subst hl
      exact Or.inl (List.mem_reverse.1 hc)
  | succ n ih =>
    intro cur s hlen l hl c hc
    match s with
    | [] =>
      rw [slGo] at hl
      by_cases hcur : cur.isEmpty = true
      · rw [if_pos hcur] at hl
        simp at hl
      · rw [if_neg hcur] at hl
        rw [List.mem_singleton] at hl
        subst hl
        exact Or.inl (List.mem_reverse.1 hc)
    | [x] =>
      rw [slGo] at hl
      by_cases hx : sep x = true
      · rw [if_pos hx] at hl
        rw [List.mem_singleton] at hl
        subst hl
        exact Or.inl (List.mem_reverse.1 hc)
      · rw [if_neg hx] at hl
        rw [List.mem_singleton] at hl
        subst hl
        rcases List.mem_cons.1 (List.mem_reverse.1 hc) with h | h
        · exact Or.inr (h ▸ List.mem_singleton.2 rfl)
        · exact Or.inl h
    | x :: d :: rest =>
      have hlen2 : (d :: rest).length ≤ n := by
        simp only [List.length_cons] at hlen ⊢
        omega
      have hlen3 : rest.length ≤ n := by
        simp only [List.length_cons] at hlen
        omega
      rw [slGo] at hl
      by_cases hx : sep x = true
      · rw [if_pos hx] at hl
        by_cases hp : (x = Char.ofNat 13 && d = Char.ofNat 10) = true
        · rw [if_pos hp] at hl
          rcases List.mem_cons.1 hl with h | h
          · subst h
            exact Or.inl (List.mem_reverse.1 hc)
          · rcases ih [] rest hlen3 l h c hc with h2 | h2
            · simp at h2
            · exact Or.inr (List.mem_cons_of_mem x (List.mem_cons_of_mem d h2))
        · rw [if_neg hp] at hl
          rcases List.mem_cons.1 hl with h | h
          · subst h
            exact Or.inl (List.mem_reverse.1 hc)
          · rcases ih [] (d :: rest) hlen2 l h c hc with h2 | h2
            · simp at h2
            · exact Or.inr (List.mem_cons_of_mem x h2)
      · rw [if_neg hx] at hl
        rcases ih (x :: cur) (d :: rest) hlen2 l hl c hc with h2 | h2
        · rcases List.mem_cons.1 h2 with h3 | h3
          · exact Or.inr (h3 ▸ List.mem_cons_self x (d :: rest))
          · exact Or.inl h3
        · exact Or.inr (List.mem_cons_of_mem x h2)

theorem pySplitlines_chars (content l : List Char) (c : Char)
    (hl : l ∈ pySplitlines content) (hc : c ∈ l) : c ∈ content := by
  rcases slGo_chars_aux pySep content.length [] content (le_refl _) l hl c hc with h | h
  · simp at h
  · exact h

/-- Claim C2 counterexample: on the one-line file G1 X5 ; X9, the preview
ends at x = 5 (the parser strips the comment), but the executor feeds the
tracker the unstripped line, whose stray X9 token moves it to x = 9. -/
theorem c2_counterexample :
    (parse_file c2File).map (fun pv => pv.segments.getLast?.map (fun sg => sg.endPos))
      = some (some ⟨5, 0, 0⟩)
    ∧ (simRun trackerInit (pySplitlines c2File)).map (fun t => t.position)
        = some ⟨9, 0, 0⟩
    ∧ (⟨9, 0, 0⟩ : Vec3) ≠ ⟨5, 0, 0⟩ := by decide

/-- C2 (corrected): for files none of whose characters open a comment
(no semicolon and no parenthesis — the tracker, unlike the parser, does
not strip comments), a successful preview with at least one segment and
the simulation-mode executor agree: the tracker's final position is the
end of the last preview segment. -/
theorem c2_theorem (content : List Char) (pv : Preview) (sg : PathSegment)
    (hcomment : ∀ c ∈ content, c ≠ ';' ∧ c ≠ '(')
    (hp : parse_file content = some pv)
    (hl : pv.segments.getLast? = some sg) :
    (simRun trackerInit (pySplitlines content)).map (fun t => t.position)
      = some sg.endPos := by
  rw [parse_file, parseFileLines] at hp
  cases hf : foldOpt parseStep parseInit (pySplitlines content) with
  | none => rw [hf] at hp; simp at hp
  | some acc2 =>
    rw [hf] at hp
    injection hp with hp
    have hseg : pv.segments = acc2.segments := by
      rw [← hp, previewOf_segments]
    have hlines : ∀ l ∈ pySplitlines content, ∀ c ∈ l, c ≠ ';' ∧ c ≠ '(' :=
      fun l hl2 c hcl => hcomment c (pySplitlines_chars content l c hl2 hcl)
    have hsim := foldOpt_parse_sim (pySplitlines content) parseInit acc2 hlines hf
    have hinv : lastEndOk acc2 :=
      foldOpt_inv lastEndOk (pySplitlines content) parseInit acc2
        (fun b0 a b1 _ hb hstep => parseStep_lastEnd b0 b1 a hstep hb)
        (fun sg2 hsg2 => by simp [parseInit] at hsg2) hf
    have hend : sg.endPos = acc2.position := hinv sg (hseg ▸ hl)
    rw [simRun]
    rw [show trackerInit = (⟨parseInit.position, parseInit.absolute⟩ : TrackerState) from rfl]
    rw [hsim]
    rw [hend]
    rfl

/-- Witness for C2 at the comment-free file G1 X5. -/
theorem c2_witness :
    (simRun trackerInit (pySplitlines c2WFile)).map (fun t => t.position)
      = some (PathSegment.endPos ⟨⟨0, 0, 0⟩, ⟨5, 0, 0⟩, false⟩) :=
  c2_theorem c2WFile c2WPreview ⟨⟨0, 0, 0⟩, ⟨5, 0, 0⟩, false⟩
    (by decide) (by decide) (by decide)

end Theorems

end CncMill
